import Mathlib

/-!
Verification of `record-videos` (github.com/maruel/record-videos).

This file shallowly embeds the motion-detection pipeline of the repository:

* `motion.go`: `processMetadata`, `filterMotion`, `findTSFiles`,
  `generateM3U8`, `processMotion`;
* `teemime.go`: `teeMimePart.listen` / `teeMimePart.relay`;
* `http.go`: the `GET /jpeg` handler of `startServer`.

Conventions used throughout:

* Wall-clock instants and durations (`time.Time` / `time.Duration`) are
  integers counted in milliseconds (`Millis := Int`).  All scenarios in this
  file use nonnegative instants.
* Go floating point values that are only compared against thresholds
  (`yavg`, `yThreshold`) are embedded as scaled integers; values that are
  parsed from text (`strconv.ParseFloat`) are embedded as rationals.
* Fallible code returns `Except` or pairs a result with an `Option` error.
* Goroutine interleavings are modelled by explicit event traces; each trace
  event corresponds to one completed `select` case of the Go source.
-/

namespace RecordVideos

/-- Wall clock instants and durations, in milliseconds (embeds `time.Time`
and `time.Duration`; the Go code works at nanosecond precision but every
quantity the claims touch is a multiple of a millisecond). -/
abbrev Millis := Int

/-- Embeds `time.Time.Round(100 * time.Millisecond)` for nonnegative
instants: round to the nearest multiple of 100ms, half rounded up (Go
rounds half away from zero, which agrees on nonnegative values). -/
def round100 (t : Millis) : Millis := ((t + 50).ediv 100) * 100

/-- Embeds `yLevel` from `motion.go`: the per-frame Y-channel statistic.
`yavg` is the YAVG float, scaled to an integer (comparisons against
`yThreshold` are the only operations performed on it downstream). -/
structure YLevel where
  frame : Nat
  t : Millis
  yavg : Int
  deriving Repr, DecidableEq

/-- Embeds `motionEvent` from `motion.go`. -/
structure MotionEvent where
  t : Millis
  start : Bool
  deriving Repr, DecidableEq

/-- Embeds `motionOptions` from `motion.go` (the fields the embedded
functions read). -/
structure MotionOptions where
  yThreshold : Int
  preCapture : Millis
  postCapture : Millis
  motionExpiration : Millis
  ignoreFirstFrames : Nat
  ignoreFirstMoments : Millis
  onEventStart : String
  onEventEnd : String
  webhook : String
  deriving Repr, DecidableEq

/-! ## `filterMotion` (motion.go lines 117-153)

The Go function is a `select` loop over four cases: context done, a `yLevel`
from `ch`, the armed `motionTimeout` timer, and a fresh 10-second
`time.After` dead-man timer created at every loop iteration.

State: `inMotion` and the armed expiration timer.  `deadline` is `some d`
when the `time.After` channel stored in `motionTimeout` has not yet
delivered; `d` is the wall time at which it delivers.  A timer armed by
`time.After(mo.motionExpiration - time.Since(l.t))` at wall time `now`
delivers at `l.t + motionExpiration` when that is in the future and
(essentially) immediately otherwise, hence `max now (l.t + expiration)`. -/

/-- State of the `filterMotion` loop together with the list of events sent
on `events` so far. -/
structure FMState where
  inMotion : Bool
  deadline : Option Millis
  out : List MotionEvent
  deriving Repr, DecidableEq

/-- Initial `filterMotion` state (`inMotion = false`, `motionTimeout` nil,
nothing emitted). -/
def fmInit : FMState := ⟨false, none, []⟩

/-- Embeds the `case l, ok := <-ch` branch of `filterMotion` for a received
`yLevel` (motion.go lines 126-141), executed at wall time `now`:
if the record passes the `ignoreFirstFrames` / `ignoreFirstMoments` guards
and reaches `yThreshold`, re-arm the expiration timer, and when not already
in motion emit `{l.t, start: true}` and set `inMotion`. -/
def fmLevel (mo : MotionOptions) (start now : Millis) (l : YLevel) (s : FMState) : FMState :=
  if l.frame ≥ mo.ignoreFirstFrames ∧ l.t - start ≥ mo.ignoreFirstMoments ∧
      l.yavg ≥ mo.yThreshold then
    let s1 : FMState := { s with deadline := some (max now (l.t + mo.motionExpiration)) }
    if s1.inMotion then s1
    else { s1 with inMotion := true, out := s1.out ++ [⟨l.t, true⟩] }
  else s

/-- Embeds the `case t := <-motionTimeout` branch of `filterMotion`
(motion.go lines 142-144): the timer delivers its fire time `t`; emit
`{t.Round(100ms), start: false}` and clear `inMotion`.  A `nil` or already
delivered timer channel never delivers, so the branch is gated on
`deadline`. -/
def fmFire (t : Millis) (s : FMState) : FMState :=
  match s.deadline with
  | some _ => { inMotion := false, deadline := none, out := s.out ++ [⟨round100 t, false⟩] }
  | none => s

/-- One completed `select` case of the `filterMotion` loop, in an arbitrary
schedule: a `yLevel` received at wall time `now`, or the armed expiration
timer delivering fire time `t`. -/
inductive FMEv where
  | level (now : Millis) (l : YLevel)
  | fire (t : Millis)
  deriving Repr, DecidableEq

/-- Runs the `filterMotion` loop over a trace of completed `select` cases. -/
def fmRun (mo : MotionOptions) (start : Millis) : List FMEv → FMState → FMState
  | [], s => s
  | FMEv.level now l :: rest, s => fmRun mo start rest (fmLevel mo start now l s)
  | FMEv.fire t :: rest, s => fmRun mo start rest (fmFire t s)

/-- `altOK e l` holds when `l` is exactly alternating starting with `e`. -/
def altOK : Bool → List Bool → Bool
  | _, [] => true
  | e, x :: xs => (x == e) && altOK (!e) xs

/-- The value an alternating-from-`e` list of this shape expects next. -/
def expAfter : Bool → List Bool → Bool
  | e, [] => e
  | e, _ :: xs => expAfter (!e) xs

theorem altOK_append (e b : Bool) (l : List Bool) :
    altOK e (l ++ [b]) = (altOK e l && (b == expAfter e l)) := by
  induction l generalizing e with
  | nil => simp [altOK, expAfter]
  | cons x xs ih => simp [altOK, expAfter, ih, Bool.and_assoc]

theorem expAfter_append (e b : Bool) (l : List Bool) :
    expAfter e (l ++ [b]) = !(expAfter e l) := by
  induction l generalizing e with
  | nil => simp [expAfter]
  | cons x xs ih => simp [expAfter, ih]

/-- The `start` flags of an emitted event list. -/
def evStarts (out : List MotionEvent) : List Bool := out.map MotionEvent.start

/-- Invariant of the `filterMotion` loop: the emitted `start` flags
alternate beginning with `true`; the next expected flag is `!inMotion`;
and the expiration timer is only armed while in motion. -/
def FMInv (s : FMState) : Prop :=
  altOK true (evStarts s.out) = true ∧
  expAfter true (evStarts s.out) = !s.inMotion ∧
  (s.deadline.isSome = true → s.inMotion = true)

theorem evStarts_append (out : List MotionEvent) (e : MotionEvent) :
    evStarts (out ++ [e]) = evStarts out ++ [e.start] := by
  simp [evStarts]

theorem fmLevel_inv (mo : MotionOptions) (start now : Millis) (l : YLevel)
    (s : FMState) (h : FMInv s) : FMInv (fmLevel mo start now l s) := by
  obtain ⟨h1, h2, h3⟩ := h
  unfold fmLevel
  split
  · by_cases him : s.inMotion
    · simp only [him, if_pos]
      exact ⟨h1, by simpa [him] using h2, fun _ => rfl⟩
    · simp only [him, if_neg, Bool.false_eq_true, not_false_iff]
      refine ⟨?_, ?_, fun _ => rfl⟩
      · rw [evStarts_append, altOK_append, h1, h2]
        simp [him]
      · rw [evStarts_append, expAfter_append, h2]
        simp [him]
  · exact ⟨h1, h2, h3⟩

theorem fmFire_inv (t : Millis) (s : FMState) (h : FMInv s) : FMInv (fmFire t s) := by
  obtain ⟨h1, h2, h3⟩ := h
  unfold fmFire
  match hd : s.deadline with
  | none => exact ⟨h1, h2, h3⟩
  | some d =>
    have him : s.inMotion = true := h3 (by simp [hd])
    refine ⟨?_, ?_, by simp⟩
    · rw [evStarts_append, altOK_append, h1, h2]
      simp [him]
    · rw [evStarts_append, expAfter_append, h2]
      simp [him]

theorem fmRun_inv (mo : MotionOptions) (start : Millis) (evs : List FMEv)
    (s : FMState) (h : FMInv s) : FMInv (fmRun mo start evs s) := by
  induction evs generalizing s with
  | nil => exact h
  | cons e rest ih =>
    cases e with
    | level now l => exact ih _ (fmLevel_inv mo start now l s h)
    | fire t => exact ih _ (fmFire_inv t s h)

theorem fmInit_inv : FMInv fmInit := by
  refine ⟨rfl, rfl, ?_⟩
  intro h
  simp [fmInit] at h

/-- C3: for every input sequence (any interleaving of received `YLevel`
records and expiration-timer fires), the `MotionEvent`s emitted by
`filterMotion` strictly alternate: the first emitted event, if any, has
`start = true`, and a second `start = true` only follows an intervening
`start = false`. -/
theorem filterMotion_alternates (mo : MotionOptions) (start : Millis) (evs : List FMEv) :
    altOK true (evStarts (fmRun mo start evs fmInit).out) = true :=
  (fmRun_inv mo start evs fmInit fmInit_inv).1

/-! ## Timed semantics of the `filterMotion` select loop

`filterMotion` restarts its dead-man timer with a fresh
`time.After(10 * time.Second)` at the top of every `select` iteration
(motion.go line 146).  The deterministic interpreter below tracks the wall
time at which the current iteration began (`lastWake`); each iteration
completes the earliest of: the next `yLevel` arrival, the armed
`motionTimeout` deadline, and the dead-man timer at `lastWake + 10s`.  It
stops, returning the loop state and the wall time of the return, when the
dead-man timer is the earliest (the `return errors.New("no events for more
than 10s")` branch).  After the listed arrivals the input channel stays
silent but open (the parser is alive but the stream is quiet).  Exact ties
between two timers (nondeterministic in Go) are broken: arrival before
deadline, dead-man before arrival; the theorems below only depend on
tie-free schedules. -/

/-- The dead-man window: `10 * time.Second`. -/
def deadmanMs : Millis := 10000

/-- `filterMotion` loop state together with the wall time at which the
current `select` iteration (and hence its fresh dead-man timer) started. -/
structure TState where
  lastWake : Millis
  fm : FMState
  deriving Repr, DecidableEq

/-- Deterministic timed interpreter of the `filterMotion` select loop
(motion.go lines 122-152) over a list of `(arrival wall time, yLevel)`
pairs, followed by indefinite silence.  Returns the final loop state and
the wall time at which the dead-man branch returned its error. -/
def timedRun (mo : MotionOptions) (start : Millis) :
    List (Millis × YLevel) → TState → FMState × Millis
  | [], s =>
    match s.fm.deadline with
    | some d =>
      if d < s.lastWake + deadmanMs then (fmFire d s.fm, d + deadmanMs)
      else (s.fm, s.lastWake + deadmanMs)
    | none => (s.fm, s.lastWake + deadmanMs)
  | (ta, l) :: rest, s =>
    let dm := s.lastWake + deadmanMs
    match s.fm.deadline with
    | some d =>
      if d < ta ∧ d < dm then
        let fm1 := fmFire d s.fm
        if ta < d + deadmanMs then
          timedRun mo start rest ⟨ta, fmLevel mo start ta l fm1⟩
        else (fm1, d + deadmanMs)
      else if ta < dm then timedRun mo start rest ⟨ta, fmLevel mo start ta l s.fm⟩
      else (s.fm, dm)
    | none =>
      if ta < dm then timedRun mo start rest ⟨ta, fmLevel mo start ta l s.fm⟩
      else (s.fm, dm)

/-- A below-threshold `yLevel` leaves the `filterMotion` state unchanged. -/
theorem fmLevel_quiet (mo : MotionOptions) (start now : Millis) (l : YLevel) (s : FMState)
    (h : l.yavg < mo.yThreshold) : fmLevel mo start now l s = s := by
  unfold fmLevel
  rw [if_neg]
  intro hc
  exact absurd hc.2.2 (not_le.mpr h)

/-- Wall time of the last arrival of the list (or `w` when it is empty). -/
def lastW (w : Millis) (l : List (Millis × YLevel)) : Millis :=
  l.foldl (fun _ p => p.1) w

/-- Arrival times are strictly increasing and each arrival lands within the
dead-man window opened at the preceding wake. -/
def gapsOK (w : Millis) : List (Millis × YLevel) → Prop
  | [] => True
  | p :: rest => w < p.1 ∧ p.1 < w + deadmanMs ∧ gapsOK p.1 rest

theorem gapsOK_append (w : Millis) (l1 l2 : List (Millis × YLevel)) :
    gapsOK w (l1 ++ l2) ↔ gapsOK w l1 ∧ gapsOK (lastW w l1) l2 := by
  induction l1 generalizing w with
  | nil => simp [gapsOK, lastW]
  | cons p l1 ih => simp [gapsOK, lastW, ih, and_assoc]

/-- Unfolding step of `timedRun`: with no armed deadline, an in-window
arrival is consumed and the loop re-enters at its wall time. -/
theorem timedRun_cons_none (mo : MotionOptions) (start ta : Millis) (l : YLevel)
    (rest : List (Millis × YLevel)) (s : TState) (hd : s.fm.deadline = none)
    (h : ta < s.lastWake + deadmanMs) :
    timedRun mo start ((ta, l) :: rest) s =
      timedRun mo start rest ⟨ta, fmLevel mo start ta l s.fm⟩ := by
  simp only [timedRun]
  rw [hd]
  simp [h]

/-- A run over below-threshold arrivals with no armed deadline only moves
the wake clock forward. -/
theorem timedRun_quiet (mo : MotionOptions) (start : Millis)
    (pre rest : List (Millis × YLevel)) (s : TState) (hd : s.fm.deadline = none)
    (hq : ∀ p ∈ pre, p.2.yavg < mo.yThreshold) (hg : gapsOK s.lastWake pre) :
    timedRun mo start (pre ++ rest) s =
      timedRun mo start rest ⟨lastW s.lastWake pre, s.fm⟩ := by
  induction pre generalizing s with
  | nil => simp [lastW]
  | cons p pre ih =>
    obtain ⟨ta, l⟩ := p
    obtain ⟨h1, h2, h3⟩ := hg
    rw [List.cons_append, timedRun_cons_none mo start ta l (pre ++ rest) s hd h2,
      fmLevel_quiet mo start ta l s.fm (hq (ta, l) (List.mem_cons_self _ _))]
    have := ih ⟨ta, s.fm⟩ hd (fun p hp => hq p (List.mem_cons_of_mem _ hp)) h3
    simpa [lastW] using this

/-- A run over below-threshold arrivals with the expiration deadline armed
at `D`: the deadline fires (between the proper arrivals, or during the
trailing silence) and the loop ends with exactly one additional emitted
event, `{D rounded to 100ms, start: false}`. -/
theorem timedRun_active (mo : MotionOptions) (start : Millis)
    (post : List (Millis × YLevel)) (s : TState) (D : Millis)
    (hd : s.fm.deadline = some D)
    (hq : ∀ p ∈ post, p.2.yavg < mo.yThreshold) (hg : gapsOK s.lastWake post)
    (hwD : s.lastWake ≤ D) (hDw : D < s.lastWake + deadmanMs) :
    (timedRun mo start post s).1 =
      ⟨false, none, s.fm.out ++ [⟨round100 D, false⟩]⟩ := by
  induction post generalizing s with
  | nil =>
    simp only [timedRun]
    rw [hd]
    simp [hDw, fmFire, hd]
  | cons p post ih =>
    obtain ⟨ta, l⟩ := p
    obtain ⟨h1, h2, h3⟩ := hg
    have h1' : s.lastWake < ta := h1
    have h2' : ta < s.lastWake + deadmanMs := h2
    have h3' : gapsOK ta post := h3
    have hql : l.yavg < mo.yThreshold := hq (ta, l) (List.mem_cons_self _ _)
    have hqr : ∀ p ∈ post, p.2.yavg < mo.yThreshold :=
      fun p hp => hq p (List.mem_cons_of_mem _ hp)
    by_cases hDta : D < ta
    · have hta : ta < D + deadmanMs := by linarith
      have hcond : D < ta ∧ D < s.lastWake + deadmanMs := ⟨hDta, hDw⟩
      have hfire : fmFire D s.fm = ⟨false, none, s.fm.out ++ [⟨round100 D, false⟩]⟩ := by
        simp [fmFire, hd]
      simp only [timedRun]
      rw [hd]
      simp only [if_pos hcond, if_pos hta]
      rw [fmLevel_quiet mo start ta l _ hql, hfire]
      rw [show post = post ++ [] from (List.append_nil post).symm]
      rw [timedRun_quiet mo start post [] ⟨ta, _⟩ rfl hqr h3']
      simp [timedRun]
    · have hcondn : ¬(D < ta ∧ D < s.lastWake + deadmanMs) := fun hc => hDta hc.1
      simp only [timedRun]
      rw [hd]
      simp only [if_neg hcondn, if_pos h2']
      rw [fmLevel_quiet mo start ta l s.fm hql]
      have := ih ⟨ta, s.fm⟩ hd hqr h3' (le_of_not_lt hDta)
        (show D < ta + deadmanMs by linarith)
      simpa using this

/-- A concrete configuration: `yThreshold` 1.00 (scaled to 100),
`motionExpiration` 5 s, no capture margins, no ignore guards, no hooks. -/
def moExp5 : MotionOptions := ⟨100, 0, 0, 5000, 0, 0, "", "", ""⟩

/-- Like `moExp5` but with `motionExpiration` 20 s. -/
def moExp20 : MotionOptions := ⟨100, 0, 0, 20000, 0, 0, "", "", ""⟩

/-- C4 counterexample: one above-threshold `yLevel` at wall time 0, then
silence forever.  The armed expiration deadline fires at 5 s, which
completes a `select` case and re-creates the 10 s dead-man timer, so the
DeadStream error is only returned at 15 s: after 11 s of silence on the
`yLevel` channel the function has not returned, contradicting the claim
that 11 s of silence suffices regardless of the expiration timer firing
during the window. -/
theorem deadStream_counterexample :
    timedRun moExp5 0 [(0, ⟨0, 0, 100⟩)] ⟨0, fmInit⟩ =
      (⟨false, none, [⟨0, true⟩, ⟨5000, false⟩]⟩, 15000) ∧ (11000 : Millis) < 15000 := by
  constructor
  · decide
  · decide

/-- C4 amended: `filterMotion` re-creates its 10 s dead-man timer at every
`select` iteration, so it returns the DeadStream error 10 s after the last
completed case.  In particular, with no armed expiration deadline, silence
on the `yLevel` channel makes it return the error exactly 10 s (hence
within 11 s) after the last wake. -/
theorem deadStream_after_quiet_10s (mo : MotionOptions) (start : Millis) (s : TState)
    (hd : s.fm.deadline = none) :
    timedRun mo start [] s = (s.fm, s.lastWake + deadmanMs) := by
  simp only [timedRun]
  rw [hd]

theorem deadStream_after_quiet_10s_witness :
    timedRun moExp5 0 [] ⟨0, fmInit⟩ = (fmInit, 10000) :=
  deadStream_after_quiet_10s moExp5 0 ⟨0, fmInit⟩ rfl

/-- C5 counterexample: with `motionExpiration` 20 s, a single spike at
time 0 followed by silence emits only `{0, start: true}`: the dead-man
timer returns at 10 s, before the 20 s expiration deadline, so the
`start: false` event is never emitted and the run produces one event, not
two. -/
theorem single_spike_counterexample :
    timedRun moExp20 0 [(0, ⟨0, 0, 100⟩)] ⟨0, fmInit⟩ =
      (⟨true, some 20000, [⟨0, true⟩]⟩, 10000) ∧
    (timedRun moExp20 0 [(0, ⟨0, 0, 100⟩)] ⟨0, fmInit⟩).1.out.length ≠ 2 := by
  constructor
  · decide
  · decide

/-- C5 amended: if every other `yLevel` stays below `yThreshold`, every
arrival falls inside the previous dead-man window, and `motionExpiration`
is positive and shorter than the 10 s dead-man window (so the expiration
deadline fires before the dead-man timer ends the run), then the run emits
exactly two events: `{spike.t, start: true}` at the spike and
`{spike.t + motionExpiration rounded to 100ms, start: false}` when the
deadline fires. -/
theorem single_spike_two_events (mo : MotionOptions) (start w0 : Millis)
    (pre post : List (Millis × YLevel)) (spike : YLevel)
    (hq1 : ∀ p ∈ pre, p.2.yavg < mo.yThreshold)
    (hq2 : ∀ p ∈ post, p.2.yavg < mo.yThreshold)
    (hs1 : spike.yavg ≥ mo.yThreshold)
    (hs2 : spike.frame ≥ mo.ignoreFirstFrames)
    (hs3 : spike.t - start ≥ mo.ignoreFirstMoments)
    (he1 : 0 < mo.motionExpiration) (he2 : mo.motionExpiration < deadmanMs)
    (hg : gapsOK w0 (pre ++ (spike.t, spike) :: post)) :
    (timedRun mo start (pre ++ (spike.t, spike) :: post) ⟨w0, fmInit⟩).1.out =
      [⟨spike.t, true⟩, ⟨round100 (spike.t + mo.motionExpiration), false⟩] := by
  obtain ⟨hgpre, hgrest⟩ := (gapsOK_append w0 pre _).mp hg
  obtain ⟨hw1, hw2, hw3⟩ := hgrest
  rw [timedRun_quiet mo start pre ((spike.t, spike) :: post) ⟨w0, fmInit⟩ rfl hq1 hgpre]
  rw [timedRun_cons_none mo start spike.t spike post ⟨lastW w0 pre, fmInit⟩ rfl hw2]
  have hfm : fmLevel mo start spike.t spike fmInit =
      ⟨true, some (spike.t + mo.motionExpiration), [⟨spike.t, true⟩]⟩ := by
    unfold fmLevel
    rw [if_pos ⟨hs2, hs3, hs1⟩]
    simp [fmInit, max_eq_right (by linarith : spike.t ≤ spike.t + mo.motionExpiration)]
  rw [hfm]
  have := timedRun_active mo start post ⟨spike.t, ⟨true, some (spike.t + mo.motionExpiration),
    [⟨spike.t, true⟩]⟩⟩ (spike.t + mo.motionExpiration) rfl hq2 hw3
    (by linarith) (by linarith)
  rw [this]
  simp

theorem single_spike_two_events_witness :
    (timedRun moExp5 0 [(100, ⟨1, 100, 50⟩), (200, ⟨4, 200, 150⟩), (300, ⟨5, 300, 50⟩)]
      ⟨0, fmInit⟩).1.out = [⟨200, true⟩, ⟨5200, false⟩] := by
  have h := single_spike_two_events moExp5 0 0 [(100, ⟨1, 100, 50⟩)] [(300, ⟨5, 300, 50⟩)]
    ⟨4, 200, 150⟩ (by decide) (by decide) (by decide) (by decide) (by decide)
    (by decide) (by decide) (by norm_num [gapsOK, deadmanMs])
  have hr : round100 ((200 : Millis) + 5000) = 5200 := by decide
  simpa [hr] using h

/-! ## `processMotion` (motion.go lines 219-298)

The event dispatcher.  `reprocess = time.Minute`.  Pending regenerations
are `[3]time.Time{event.t, start, end}` entries in `toGen`. -/

/-- `reprocess`: one minute. -/
def reprocessMs : Millis := 60000

/-- A pending regeneration entry `[3]time.Time{event.t, start, end}`
(`stop` embeds the Go array slot `l[2]`, the window end; `end` is a
reserved word in Lean). -/
structure GenEntry where
  t : Millis
  start : Millis
  stop : Millis
  deriving Repr, DecidableEq

/-- Embeds the drain loop of the `case n := <-retryGen` branch of
`processMotion` (motion.go lines 234-242):

    for len(toGen) != 0 \x7b
      if l := toGen[0]; n.After(l[2]) \x7b
        if err := generateM3U8(root, l[0], l[1], l[2]); err != nil \x7b return err \x7d
        toGen = toGen[1:]
      \x7d
    \x7d

`fuel` bounds the number of iterations of the Go `for` loop; the result is
`none` when the loop is still running after `fuel` iterations and
`some remainingQueue` when the loop's guard became false.  Playlist writes
are pure side effects that do not change the queue and are not modelled
here; `n.After(l[2])` is the strict comparison `l[2] < n`. -/
def drainLoop (n : Millis) : Nat → List GenEntry → Option (List GenEntry)
  | _, [] => some []
  | 0, _ :: _ => none
  | fuel + 1, e :: rest =>
    if e.stop < n then drainLoop n fuel rest else drainLoop n fuel (e :: rest)

/-- The drain loop never exits while the head entry's window end is not in
the past: the `if` has no `else break`, so the loop re-tests the same
unexpired head forever. -/
theorem drainLoop_stuck (n : Millis) (e : GenEntry) (rest : List GenEntry)
    (h : ¬ e.stop < n) : ∀ fuel, drainLoop n fuel (e :: rest) = none := by
  intro fuel
  induction fuel with
  | zero => rfl
  | succ k ih => simpa [drainLoop, h] using ih

/-- When the drain loop does exit, the queue is empty: the re-arm
`if len(toGen) != 0 { retryGen = time.After(reprocess) }` after the loop
(motion.go lines 243-245) is dead code. -/
theorem drainLoop_exit_empty (n : Millis) :
    ∀ (fuel : Nat) (q q2 : List GenEntry), drainLoop n fuel q = some q2 → q2 = [] := by
  intro fuel
  induction fuel with
  | zero =>
    intro q q2 h
    match q with
    | [] => simpa [drainLoop] using h.symm
    | _ :: _ => simp [drainLoop] at h
  | succ k ih =>
    intro q q2 h
    match q with
    | [] => simpa [drainLoop] using h.symm
    | e :: rest =>
      by_cases hc : e.stop < n
      · exact ih rest q2 (by simpa [drainLoop, hc] using h)
      · exact ih (e :: rest) q2 (by simpa [drainLoop, hc] using h)

/-- C2: when the regeneration timer fires at wall time `n = 60s` with the
queue holding one entry whose window end (`65s`, e.g. an end event at
`t = 0` with `postCapture = 5s`, so `end = t + reprocess + postCapture`)
is not before `n`, the drain loop of `processMotion` runs forever - for
every iteration bound `fuel` the loop is still running - instead of
terminating with the unexpired entry left queued and the timer re-armed. -/
theorem processMotion_drain_diverges :
    ∀ fuel : Nat, drainLoop 60000 fuel [⟨0, 0, 65000⟩] = none :=
  drainLoop_stuck 60000 ⟨0, 0, 65000⟩ [] (by decide)

/-! ## The event branch of `processMotion` (motion.go lines 248-289)

One `case event, ok := <-ch` body: update `last` on a start event, write
the playlist bracket, enqueue a deferred regeneration and arm `retryGen`
on an end event, run the hook script, POST the webhook.  `generateM3U8`
and the external command and POST outcomes are oracles supplied in
`EventEnv`; only a playlist-write error aborts the dispatcher. -/

/-- An HTTP POST issued by the webhook call. -/
structure HttpPost where
  url : String
  contentType : String
  body : String
  deriving Repr, DecidableEq

/-- Embeds `json.Marshal(map[string]bool\x7b"motion": event.start\x7d)`:
the exact bytes Go produces for a one-key map from string to bool. -/
def motionJSON (start : Bool) : String :=
  if start then "\x7b\"motion\":true\x7d" else "\x7b\"motion\":false\x7d"

/-- Outcomes of the side effects of one event case: result of the
`generateM3U8` call, whether the hook command fails, whether the webhook
POST fails. -/
structure EventEnv where
  genErr : Option String
  cmdFails : Bool
  postFails : Bool
  deriving Repr, DecidableEq

/-- Dispatcher state across events: `last` and the pending queue. -/
structure PMState where
  last : Millis
  toGen : List GenEntry
  deriving Repr, DecidableEq

/-- Observable outcome of one event case: updated state, whether
`retryGen` was re-armed, the POSTs issued, the hook commands run, and the
error `processMotion` returns (`some` aborts the loop). -/
structure EventResult where
  state : PMState
  rearmed : Bool
  posts : List HttpPost
  cmds : List String
  err : Option String
  deriving Repr, DecidableEq

/-- Embeds the `case event, ok := <-ch` body of `processMotion`
(motion.go lines 248-289). -/
def processMotionEvent (mo : MotionOptions) (env : EventEnv) (s : PMState)
    (ev : MotionEvent) : EventResult :=
  let last := if ev.start then ev.t else s.last
  let gstart := last - mo.preCapture
  let gend := ev.t + reprocessMs + mo.postCapture
  match env.genErr with
  | some e => ⟨⟨last, s.toGen⟩, false, [], [], some e⟩
  | none =>
    let toGen := if ev.start then s.toGen else s.toGen ++ [⟨ev.t, gstart, gend⟩]
    let rearmed := !ev.start
    let cmds :=
      if ev.start then (if mo.onEventStart ≠ "" then [mo.onEventStart] else [])
      else (if mo.onEventEnd ≠ "" then [mo.onEventEnd] else [])
    let posts :=
      if mo.webhook ≠ "" then [⟨mo.webhook, "application/json", motionJSON ev.start⟩] else []
    ⟨⟨last, toGen⟩, rearmed, posts, cmds, none⟩

/-- A configuration with a webhook configured and no hook scripts. -/
def moWebhook : MotionOptions := ⟨100, 0, 0, 5000, 0, 0, "", "", "http://127.0.0.1:8000/hook"⟩

/-- C9: for every event whose playlist write succeeds, with a webhook
configured, exactly one POST is issued, with content type
`application/json` and the byte-exact body
`\x7b"motion":true\x7d` for a start event and
`\x7b"motion":false\x7d` for an end event; the POST outcome (`postFails`
arbitrary) never makes the dispatcher return an error. -/
theorem processMotion_webhook (mo : MotionOptions) (env : EventEnv) (s : PMState)
    (ev : MotionEvent) (hgen : env.genErr = none) (hwh : mo.webhook ≠ "") :
    (processMotionEvent mo env s ev).posts =
      [⟨mo.webhook, "application/json",
        if ev.start then "\x7b\"motion\":true\x7d" else "\x7b\"motion\":false\x7d"⟩] ∧
    (processMotionEvent mo env s ev).err = none := by
  unfold processMotionEvent
  rw [hgen]
  simp [hwh, motionJSON]

theorem processMotion_webhook_witness :
    (processMotionEvent moWebhook ⟨none, false, true⟩ ⟨0, []⟩ ⟨1000, true⟩).posts =
      [⟨"http://127.0.0.1:8000/hook", "application/json", "\x7b\"motion\":true\x7d"⟩] ∧
    (processMotionEvent moWebhook ⟨none, false, true⟩ ⟨0, []⟩ ⟨1000, true⟩).err = none := by
  have h := processMotion_webhook moWebhook ⟨none, false, true⟩ ⟨0, []⟩ ⟨1000, true⟩ rfl
    (by decide)
  simpa using h

/-! ## String primitives

The Go string operations the embedded code uses, re-implemented over
character lists (Lean core `String` functions do not reduce in the
kernel).  All data handled by the repository is ASCII, where Go's
byte-wise operations and these character-wise ones agree. -/

/-- Go `strings.HasPrefix` / `strings.CutPrefix` test. -/
def strStartsWith (s p : String) : Bool := p.data.isPrefixOf s.data

/-- Go slicing `s[n:]` (ASCII: byte index = character index). -/
def strDrop (s : String) (n : Nat) : String := ⟨s.data.drop n⟩

/-- Go byte-wise string comparison `a <= b` (ASCII code point order). -/
def strLe : List Char → List Char → Bool
  | [], _ => true
  | _ :: _, [] => false
  | a :: as, b :: bs =>
    if a.toNat < b.toNat then true
    else if b.toNat < a.toNat then false
    else strLe as bs

/-- Go `a <= b` on strings. -/
def goStrLe (a b : String) : Bool := strLe a.data b.data

/-- ASCII whitespace, as recognised by `strings.Fields` on ASCII input. -/
def isWSChar (c : Char) : Bool := c == ' ' || c == '\t' || c == '\n' || c == '\r'

/-- Worker for `strings.Fields`: split around runs of whitespace;
`cur` is the current field accumulated in reverse. -/
def goFieldsAux : List Char → List Char → List (List Char)
  | [], cur => if cur.isEmpty then [] else [cur.reverse]
  | c :: rest, cur =>
    if isWSChar c then
      if cur.isEmpty then goFieldsAux rest [] else cur.reverse :: goFieldsAux rest []
    else goFieldsAux rest (c :: cur)

/-- Go `strings.Fields` (ASCII input): whitespace-delimited fields, no
empty fields. -/
def goFields (s : String) : List String := (goFieldsAux s.data []).map (fun cs => ⟨cs⟩)

/-- Decimal digit value. -/
def digitVal (c : Char) : Option Nat :=
  if c.toNat ≥ 48 ∧ c.toNat ≤ 57 then some (c.toNat - 48) else none

def digitsToNatAux : List Char → Nat → Option Nat
  | [], acc => some acc
  | c :: rest, acc =>
    match digitVal c with
    | some d => digitsToNatAux rest (acc * 10 + d)
    | none => none

/-- A nonempty all-digit run as a natural number. -/
def digitsToNat (cs : List Char) : Option Nat :=
  if cs.isEmpty then none else digitsToNatAux cs 0

/-- Go `strconv.Atoi`: optional sign, then a nonempty digit run
(the int64 overflow bound of Go is not modelled; the metadata values are
tiny). -/
def goAtoi (s : String) : Option Int :=
  match s.data with
  | '-' :: rest => (digitsToNat rest).map (fun n => -(n : Int))
  | '+' :: rest => (digitsToNat rest).map (fun n => (n : Int))
  | cs => (digitsToNat cs).map (fun n => (n : Int))

/-- Unsigned decimal literal with optional fractional part, as an exact
rational. -/
def parseDecimal (cs : List Char) : Option Rat :=
  match cs.splitOn '.' with
  | [ip] => (digitsToNat ip).map (fun n => (n : Rat))
  | [ip, fp] =>
    match digitsToNat ip, digitsToNat fp with
    | some i, some f => some ((i : Rat) + (f : Rat) / ((10 : Rat) ^ fp.length))
    | _, _ => none
  | _ => none

/-- Go `strconv.ParseFloat` on the plain decimal forms the metadata stream
produces (optional sign, digits, optional fraction).  Exponent, hex,
`inf`/`NaN` and bare `.5` / `1.` forms are not modelled; floats are exact
rationals. -/
def goParseFloat (s : String) : Option Rat :=
  match s.data with
  | '-' :: rest => (parseDecimal rest).map (fun q => -q)
  | '+' :: rest => parseDecimal rest
  | cs => parseDecimal cs

/-! ## `processMetadata` (motion.go lines 78-114)

The Metadata Parser.  It works at Go's nanosecond precision, so this
embedding counts instants in nanoseconds. -/

/-- Truncation toward zero (Go float-to-integer conversion). -/
def ratTrunc (q : Rat) : Int := if q ≥ 0 then q.floor else q.ceil

/-- Go `math.Round`: round half away from zero. -/
def ratRoundAway (q : Rat) : Int :=
  if q ≥ 0 then (q + 1 / 2).floor else (q - 1 / 2).ceil

/-- `time.Round(100 * time.Millisecond)` at nanosecond precision, for
nonnegative instants. -/
def round100ns (t : Int) : Int := ((t + 50000000).ediv 100000000) * 100000000

/-- A `yLevel` as emitted by `processMetadata` (nanosecond timestamps,
exact-rational YAVG). -/
structure MetaYLevel where
  frame : Int
  tNs : Int
  yavg : Rat
  deriving Repr, DecidableEq

/-- The `fmt.Errorf("unexpected metadata output: %q", l)` failure. -/
inductive MetaErr where
  | malformed (line : String)
  deriving Repr, DecidableEq

def exceptIsError {ε α : Type} : Except ε α → Bool
  | .error _ => true
  | .ok _ => false

/-- The `lavfi.signalstats.YAVG=` line marker. -/
def yavgKey : String := "lavfi.signalstats.YAVG="

/-- Embeds the scan loop of `processMetadata` (motion.go lines 84-113)
over the input lines; `frame` and `ptsNs` are the loop-carried variables
(`frame`, `ptsTime`).  A YAVG line emits
`yLevel{frame, start.Add(ptsTime).Round(100ms), round(yavg*100)*0.01}`;
any other line must split into exactly three whitespace fields whose first
has prefix `frame:` and whose third has prefix `pts_time:`, with the
`frame:` suffix parsing as an integer and the `pts_time:` suffix as a
float - the second field is only counted, never inspected. -/
def processMetadata (startNs : Int) (frame : Int) (ptsNs : Int) :
    List String → Except MetaErr (List MetaYLevel)
  | [] => .ok []
  | l :: rest =>
    if strStartsWith l yavgKey then
      match goParseFloat (strDrop l yavgKey.data.length) with
      | none => .error (.malformed l)
      | some y =>
        let y2 : Rat := (ratRoundAway (y * 100) : Rat) * (1 / 100)
        (processMetadata startNs frame ptsNs rest).map
          (fun out => ⟨frame, round100ns (startNs + ptsNs), y2⟩ :: out)
    else
      match goFields l with
      | [f0, _f1, f2] =>
        if strStartsWith f0 "frame:" && strStartsWith f2 "pts_time:" then
          match goAtoi (strDrop f0 6), goParseFloat (strDrop f2 9) with
          | some fr, some v => processMetadata startNs fr (ratTrunc (v * 1000000000)) rest
          | _, _ => .error (.malformed l)
        else .error (.malformed l)
      | _ => .error (.malformed l)

/-- Stated from the spec, as amended: a non-YAVG metadata line is well
formed when it has exactly three whitespace fields, the first with prefix
`frame:` and an integer suffix, the third with prefix `pts_time:` and a
float suffix; the second field is unconstrained. -/
def specWellFormedLine (l : String) : Bool :=
  match goFields l with
  | [f0, _f1, f2] =>
    (strStartsWith f0 "frame:" && strStartsWith f2 "pts_time:") &&
      ((goAtoi (strDrop f0 6)).isSome && (goParseFloat (strDrop f2 9)).isSome)
  | _ => false

/-- C6 counterexample: the three-field line `frame:1 x pts_time:2.5`,
whose second field does not begin with `pts:`, is accepted by
`processMetadata` (no error, no emission), contradicting the claim that
such a line is rejected: the code never inspects the second field. -/
theorem processMetadata_second_field_unchecked :
    processMetadata 0 0 0 ["frame:1 x pts_time:2.5"] = .ok [] ∧
    strStartsWith "x" "pts:" = false := by
  constructor
  · rfl
  · rfl

/-- C6 amended: a non-YAVG line is rejected with the MalformedMetadata
error exactly when it is not of the shape: three whitespace fields, first
with prefix `frame:` whose suffix parses as an integer, third with prefix
`pts_time:` whose suffix parses as a float.  The `pts:` prefix of the
second field is not checked. -/
theorem processMetadata_malformed_iff (startNs frame ptsNs : Int) (l : String)
    (hny : strStartsWith l yavgKey = false) :
    exceptIsError (processMetadata startNs frame ptsNs [l]) = !specWellFormedLine l := by
  unfold processMetadata specWellFormedLine
  rw [hny]
  simp only [Bool.false_eq_true, if_false]
  cases hfs : goFields l with
  | nil => rfl
  | cons f0 fs0 =>
    cases fs0 with
    | nil => rfl
    | cons f1 fs1 =>
      cases fs1 with
      | nil => rfl
      | cons f2 fs2 =>
        cases fs2 with
        | cons f3 fs3 => rfl
        | nil =>
          by_cases hb : (strStartsWith f0 "frame:" && strStartsWith f2 "pts_time:") = true
          · cases ha : goAtoi (strDrop f0 6) with
            | none => simp [hb, ha, exceptIsError]
            | some fr =>
              cases hv : goParseFloat (strDrop f2 9) with
              | none => simp [hb, ha, hv, exceptIsError]
              | some v => simp [hb, ha, hv, exceptIsError, processMetadata]
          · simp only [Bool.not_eq_true] at hb
            simp [hb, exceptIsError]

theorem processMetadata_malformed_iff_witness :
    exceptIsError (processMetadata 0 0 0 ["frame:1 x pts_time:2.5"]) = false := by
  have h := processMetadata_malformed_iff 0 0 0 "frame:1 x pts_time:2.5" (by rfl)
  rw [h]
  rfl

/-! ## `findTSFiles` / `generateM3U8` (motion.go lines 155-206)

The Playlist Writer.  The root directory is modelled as an association
list from file name to content (`os.ReadDir` listing = the names, in
list order); `generateM3U8`'s file side effects (`os.Create` of the
temporary file, template execution, `Close`, `os.Rename`) and their
failure points are made explicit through a fault oracle. -/

/-- Go `strings.HasSuffix`. -/
def strEndsWith (s p : String) : Bool := p.data.isSuffixOf s.data

/-- A decimal digit as a character. -/
def digitChar (d : Nat) : Char := Char.ofNat (48 + d % 10)

/-- Two-digit zero-padded decimal (Go format codes `01`, `02`, `15`,
`04`, `05`; the calendar fields are always in range). -/
def pad2 (n : Nat) : String := ⟨[digitChar ((n / 10) % 10), digitChar (n % 10)]⟩

/-- Four-digit zero-padded decimal (Go format code `2006`, years up to
9999). -/
def pad4 (n : Nat) : String :=
  ⟨[digitChar ((n / 1000) % 10), digitChar ((n / 100) % 10),
    digitChar ((n / 10) % 10), digitChar (n % 10)]⟩

/-- A calendar instant as used by the playlist naming (`time.Time` broken
into the formatted fields). -/
structure GoTime where
  year : Nat
  month : Nat
  day : Nat
  hour : Nat
  minute : Nat
  second : Nat
  deriving Repr, DecidableEq

/-- Go `t.Format("2006-01-02T15-04-05")`. -/
def fmtTS (t : GoTime) : String :=
  pad4 t.year ++ "-" ++ pad2 t.month ++ "-" ++ pad2 t.day ++ "T" ++
    pad2 t.hour ++ "-" ++ pad2 t.minute ++ "-" ++ pad2 t.second

/-- Embeds `findTSFiles` (motion.go lines 166-183): keep the directory
entries with suffix `.ts` lying in the inclusive byte-lexicographic
window `[start.ts, end.ts]` (`fin` embeds the Go parameter `end`, a
reserved word in Lean). -/
def findTSFiles (entries : List String) (start fin : GoTime) : List String :=
  let s := fmtTS start ++ ".ts"
  let e := fmtTS fin ++ ".ts"
  entries.filter (fun n => strEndsWith n ".ts" && goStrLe s n && goStrLe n e)

/-- A directory: file name to content, names unique. -/
abbrev FS := List (String × String)

def fsLookup : FS → String → Option String
  | [], _ => none
  | p :: rest, name => if p.1 = name then some p.2 else fsLookup rest name

/-- `os.Create` / a full write: truncate-or-create `name` with `content`. -/
def fsSet : FS → String → String → FS
  | [], name, content => [(name, content)]
  | p :: rest, name, content =>
    if p.1 = name then (name, content) :: rest else p :: fsSet rest name content

def fsRemove : FS → String → FS
  | [], _ => []
  | p :: rest, name => if p.1 = name then fsRemove rest name else p :: fsRemove rest name

/-- `os.Rename`: atomically move `oldN` over `newN` (no-op when `oldN`
does not exist; a failed rename performs no move at all). -/
def fsRename (fs : FS) (oldN newN : String) : FS :=
  match fsLookup fs oldN with
  | some c => fsSet (fsRemove fs oldN) newN c
  | none => fs

theorem fsLookup_set_self (fs : FS) (n c : String) : fsLookup (fsSet fs n c) n = some c := by
  induction fs with
  | nil => simp [fsSet, fsLookup]
  | cons p rest ih =>
    by_cases h : p.1 = n
    · simp [fsSet, fsLookup, h]
    · simp [fsSet, fsLookup, h, ih]

theorem fsLookup_set_ne (fs : FS) (k n c : String) (h : k ≠ n) :
    fsLookup (fsSet fs k c) n = fsLookup fs n := by
  induction fs with
  | nil => simp [fsSet, fsLookup, h]
  | cons p rest ih =>
    by_cases hp : p.1 = k
    · simp [fsSet, fsLookup, hp, h]
    · by_cases hn : p.1 = n
      · simp [fsSet, fsLookup, hp, hn, Ne.symm h]
      · simp [fsSet, fsLookup, hp, hn, ih]

/-- The rendered playlist: the literal `m3u8Tmpl` template applied to the
file list (motion.go lines 156-164). -/
def m3u8Render (files : List String) : String :=
  "#EXTM3U\n#EXT-X-VERSION:6\n#EXT-X-ALLOW-CACHE:YES\n#EXT-X-TARGETDURATION:4\n" ++
    "#EXT-X-MEDIA-SEQUENCE:0\n#EXT-X-INDEPENDENT-SEGMENTS\n" ++
    String.join (files.map (fun f => "#EXTINF:4.000000,\n" ++ f ++ "\n"))

/-- Failure oracle for the effectful steps of `generateM3U8`. -/
structure GenFaults where
  createFails : Bool
  writeFails : Bool
  closeFails : Bool
  renameFails : Bool
  deriving Repr, DecidableEq

def noFaults : GenFaults := ⟨false, false, false, false⟩

/-- Embeds `generateM3U8` (motion.go lines 186-206): list the segment
files; return immediately (no file touched) when none match; otherwise
create `<name>.tmp`, execute the template into it, close it, and rename
it onto `<name>`.  Returns the final directory and the error returned
(`some` = the Go non-nil error; a failed write leaves the created
truncated temporary file behind). -/
def generateM3U8 (fa : GenFaults) (fs : FS) (t start fin : GoTime) : FS × Option String :=
  let files := findTSFiles (fs.map (fun p => p.1)) start fin
  if files.isEmpty then (fs, none)
  else
    let name := fmtTS t ++ ".m3u8"
    if fa.createFails then (fs, some "create")
    else
      let fs1 := fsSet fs (name ++ ".tmp") ""
      if fa.writeFails then (fs1, some "write")
      else
        let fs2 := fsSet fs1 (name ++ ".tmp") (m3u8Render files)
        if fa.closeFails then (fs2, some "close")
        else if fa.renameFails then (fs2, some "rename")
        else (fsRename fs2 (name ++ ".tmp") name, none)

theorem append_tmp_ne (s : String) : s ++ ".tmp" ≠ s := by
  intro h
  have hl := congrArg String.length h
  rw [String.length_append] at hl
  have h4 : String.length ".tmp" = 4 := rfl
  omega

/-- C7: the playlist written by `generateM3U8` at
`root/<t formatted>.m3u8` renders exactly the directory entries with
suffix `.ts` lying byte-lexicographically in the inclusive window
`[<start formatted>.ts, <end formatted>.ts]`; when no entry matches, the
call returns nil having created and modified nothing. -/
theorem generateM3U8_playlist_window (fs : FS) (t s e : GoTime) :
    (∀ n, n ∈ findTSFiles (fs.map (fun p => p.1)) s e ↔
      n ∈ fs.map (fun p => p.1) ∧
        (strEndsWith n ".ts" && goStrLe (fmtTS s ++ ".ts") n &&
          goStrLe n (fmtTS e ++ ".ts")) = true) ∧
    (findTSFiles (fs.map (fun p => p.1)) s e = [] →
      generateM3U8 noFaults fs t s e = (fs, none)) ∧
    (findTSFiles (fs.map (fun p => p.1)) s e ≠ [] →
      (generateM3U8 noFaults fs t s e).2 = none ∧
      fsLookup (generateM3U8 noFaults fs t s e).1 (fmtTS t ++ ".m3u8") =
        some (m3u8Render (findTSFiles (fs.map (fun p => p.1)) s e))) := by
  refine ⟨?_, ?_, ?_⟩
  · intro n
    simp [findTSFiles, List.mem_filter, Bool.and_assoc]
  · intro h
    simp [generateM3U8, h]
  · intro h
    have hne : (findTSFiles (fs.map (fun p => p.1)) s e).isEmpty = false := by
      simpa [List.isEmpty_iff] using h
    constructor
    · simp [generateM3U8, hne, noFaults, fsRename, fsLookup_set_self]
    · simp only [generateM3U8, hne, noFaults, Bool.false_eq_true, if_false]
      rw [fsRename, fsLookup_set_self, fsLookup_set_self]

theorem generateM3U8_playlist_window_witness :
    generateM3U8 noFaults [("a.txt", "junk")] ⟨2024, 1, 1, 0, 0, 0⟩
      ⟨2024, 1, 1, 0, 0, 3⟩ ⟨2024, 1, 1, 0, 0, 7⟩ = ([("a.txt", "junk")], none) :=
  (generateM3U8_playlist_window [("a.txt", "junk")] ⟨2024, 1, 1, 0, 0, 0⟩
    ⟨2024, 1, 1, 0, 0, 3⟩ ⟨2024, 1, 1, 0, 0, 7⟩).2.1 (by rfl)

/-- C8: whenever `generateM3U8` returns an error - temporary-file
creation, template execution, close, or even the final rename failing -
the playlist file `<name>` is neither created nor modified; only a
successful rename publishes the new content, so a reader sees the old
playlist or the fully written new one. -/
theorem generateM3U8_error_leaves_playlist (fa : GenFaults) (fs : FS) (t s e : GoTime)
    (h : (generateM3U8 fa fs t s e).2.isSome = true) :
    fsLookup (generateM3U8 fa fs t s e).1 (fmtTS t ++ ".m3u8") =
      fsLookup fs (fmtTS t ++ ".m3u8") := by
  obtain ⟨cf, wf, clf, rf⟩ := fa
  have htmp : (fmtTS t ++ ".m3u8") ++ ".tmp" ≠ fmtTS t ++ ".m3u8" :=
    append_tmp_ne (fmtTS t ++ ".m3u8")
  by_cases hemp : (findTSFiles (fs.map (fun p => p.1)) s e).isEmpty
  · simp [generateM3U8, hemp] at h
  · simp only [Bool.not_eq_true] at hemp
    cases cf with
    | true => simp [generateM3U8, hemp]
    | false =>
      cases wf with
      | true => simp [generateM3U8, hemp, fsLookup_set_ne _ _ _ _ htmp]
      | false =>
        cases clf with
        | true =>
          simp [generateM3U8, hemp, fsLookup_set_ne _ _ _ _ htmp]
        | false =>
          cases rf with
          | true => simp [generateM3U8, hemp, fsLookup_set_ne _ _ _ _ htmp]
          | false => simp [generateM3U8, hemp] at h

theorem generateM3U8_error_leaves_playlist_witness :
    fsLookup (generateM3U8 ⟨true, false, false, false⟩
      [("2024-01-01T00-00-04.ts", "seg"), ("2024-01-01T00-00-00.m3u8", "OLD")]
      ⟨2024, 1, 1, 0, 0, 0⟩ ⟨2024, 1, 1, 0, 0, 3⟩ ⟨2024, 1, 1, 0, 0, 7⟩).1
      (fmtTS ⟨2024, 1, 1, 0, 0, 0⟩ ++ ".m3u8") =
    fsLookup [("2024-01-01T00-00-04.ts", "seg"), ("2024-01-01T00-00-00.m3u8", "OLD")]
      (fmtTS ⟨2024, 1, 1, 0, 0, 0⟩ ++ ".m3u8") :=
  generateM3U8_error_leaves_playlist ⟨true, false, false, false⟩
    [("2024-01-01T00-00-04.ts", "seg"), ("2024-01-01T00-00-00.m3u8", "OLD")]
    ⟨2024, 1, 1, 0, 0, 0⟩ ⟨2024, 1, 1, 0, 0, 3⟩ ⟨2024, 1, 1, 0, 0, 7⟩ (by rfl)

/-! ## `teeMimePart` (teemime.go)

The multipart tee.  Channels are numbered; each channel's buffered
content is an explicit queue.  `listen` iterations and `relay` calls are
the atomic steps; the model below replays the exact sequence of channel
operations the source performs. -/

/-- Embeds `mimePart` (teemime.go lines 16-19). -/
structure MimePart where
  hdr : List (String × List String)
  b : String
  deriving Repr, DecidableEq

/-- The zero `mimePart` (the initial `teeMimePart.last`). -/
def emptyPart : MimePart := ⟨[], ""⟩

/-- Embeds `teeMimePart` plus the channels in flight: the latest part,
the listener channel ids, every live channel's buffer, and the id
counter for `make(chan mimePart, ...)`. -/
structure TeeState where
  last : MimePart
  listeners : List Nat
  bufs : List (Nat × List MimePart)
  nextId : Nat
  deriving Repr, DecidableEq

def teeInit : TeeState := ⟨emptyPart, [], [], 0⟩

def bufGet (st : TeeState) (id : Nat) : List MimePart :=
  ((st.bufs.find? (fun p => p.1 == id)).map (fun p => p.2)).getD []

def bufSet (st : TeeState) (id : Nat) (q : List MimePart) : TeeState :=
  { st with bufs := st.bufs.map (fun p => if p.1 == id then (id, q) else p) }

/-- The non-blocking send with steal of `listen` (teemime.go lines 56-74)
on a capacity-1 listener channel: try a non-blocking send; when the
buffer is full, drain one stale element and try again non-blockingly. -/
def sendSteal (q : List MimePart) (pkt : MimePart) : List MimePart :=
  if q.length < 1 then q ++ [pkt]
  else
    let q1 := q.drop 1
    if q1.length < 1 then q1 ++ [pkt] else q1

/-- One iteration of `teeMimePart.listen` for a decoded part
(teemime.go lines 50-75): store the part as `last`, snapshot the listener
list under the mutex, then send to each listener channel with steal. -/
def listenPublish (st : TeeState) (pkt : MimePart) : TeeState :=
  let st1 := { st with last := pkt }
  st.listeners.foldl (fun acc id => bufSet acc id (sendSteal (bufGet acc id) pkt)) st1

/-- What one `relay` call produces: the updated tee, the id of `ch`
(the channel `relay` returns to its caller), and the id of `ch2` (the
channel the spawned goroutine deposits the latest part into and then
forwards `ch` into). -/
structure RelayResult where
  st : TeeState
  retChan : Nat
  fwdChan : Nat
  deriving Repr, DecidableEq

/-- Embeds `teeMimePart.relay` (teemime.go lines 81-126) up to the point
where the spawned goroutine has performed its initial deposit:
`ch := make(chan mimePart, 1)`; under the mutex append `ch` to the
listeners and snapshot `last`; `ch2 := make(chan mimePart, 2)`; the
goroutine deposits the non-empty snapshot into `ch2` (not into `ch`);
the function returns `ch`. -/
def relay (st : TeeState) : RelayResult :=
  let ch := st.nextId
  let st1 : TeeState := { st with listeners := st.listeners ++ [ch],
                                  bufs := st.bufs ++ [(ch, [])],
                                  nextId := st.nextId + 1 }
  let lastSnap := st1.last
  let ch2 := st1.nextId
  let st2 : TeeState := { st1 with bufs := st1.bufs ++ [(ch2, [])], nextId := st1.nextId + 1 }
  let st3 := if lastSnap.hdr.length ≠ 0 ∨ lastSnap.b.length ≠ 0 then
      bufSet st2 ch2 (bufGet st2 ch2 ++ [lastSnap])
    else st2
  ⟨st3, ch, ch2⟩

/-- A receive on a channel: `none` when the buffer is empty (the reader
blocks). -/
def recvChan (st : TeeState) (id : Nat) : Option (MimePart × TeeState) :=
  match bufGet st id with
  | [] => none
  | p :: q => some (p, bufSet st id q)

/-- First published part. -/
def teeP1 : MimePart := ⟨[("Content-Type", ["image/jpeg"])], "frame1"⟩

/-- Second published part. -/
def teeP2 : MimePart := ⟨[("Content-Type", ["image/jpeg"])], "frame2"⟩

/-- The tee after publishing `teeP1` and then subscribing. -/
def teeSub : RelayResult := relay (listenPublish teeInit teeP1)

/-- C1: subscribing after the non-empty part `teeP1` has been published
leaves the channel `relay` returns empty - the latest part was deposited
into `ch2`, a different channel that `relay` never returns - and after a
further publish of `teeP2` the first value the subscriber can receive
from the returned channel is `teeP2`, not the part that was latest at
subscribe time.  (`relay` also appends the subscriber to the broadcast
list before the deposit, not after it as claimed.) -/
theorem tee_relay_returns_wrong_channel :
    (bufGet teeSub.st teeSub.retChan = [] ∧ bufGet teeSub.st teeSub.fwdChan = [teeP1] ∧
      teeSub.retChan ≠ teeSub.fwdChan) ∧
    ((recvChan (listenPublish teeSub.st teeP2) teeSub.retChan).map (fun r => r.1) =
      some teeP2 ∧ teeP2 ≠ teeP1) := by
  constructor
  · refine ⟨rfl, rfl, by decide⟩
  · refine ⟨rfl, by decide⟩

/-! ## The `GET /jpeg` handler (http.go lines 114-143)

`startServer`'s single-image endpoint: on receiving a part from its
subscription, it copies the part headers onto the response - panicking
with "internal error" when any key maps to a number of values other than
one - and writes the body with status 200. -/

/-- `http.Header.Set` on the response headers (the part keys arrive
already canonicalised from the multipart reader). -/
def hdrSet : List (String × String) → String → String → List (String × String)
  | [], k, v => [(k, v)]
  | p :: rest, k, v => if p.1 = k then (k, v) :: rest else p :: hdrSet rest k v

/-- The headers the handler sets before a part arrives (http.go lines
117-121). -/
def jpegBaseHeaders : List (String × String) :=
  [("Connection", "close"),
   ("Cache-Control", "no-store, no-cache, must-revalidate, max-age=0"),
   ("Pragma", "no-cache"),
   ("Expires", "0")]

/-- The header-copy loop (http.go lines 128-133):

    for k, v := range p.hdr \x7b
      if len(v) != 1 \x7b panic("internal error") \x7d
      h.Set(k, v[0])
    \x7d

`.error` embeds the panic. -/
def setPartHeaders : List (String × List String) → List (String × String) →
    Except String (List (String × String))
  | [], h => .ok h
  | (k, [v]) :: rest, h => setPartHeaders rest (hdrSet h k v)
  | (_, _) :: _, _ => .error "internal error"

structure HttpResponse where
  status : Nat
  headers : List (String × String)
  body : String
  deriving Repr, DecidableEq

/-- Embeds the part branch of the `GET /jpeg` handler (http.go lines
125-138): copy the part headers, then `WriteHeader(200)` and write the
part body. -/
def jpegHandler (p : MimePart) : Except String HttpResponse :=
  (setPartHeaders p.hdr jpegBaseHeaders).map (fun h => ⟨200, h, p.b⟩)

theorem setPartHeaders_ok (hdr : List (String × List String))
    (acc : List (String × String)) (h : ∀ kv ∈ hdr, kv.2.length = 1) :
    setPartHeaders hdr acc =
      .ok (hdr.foldl (fun a kv => hdrSet a kv.1 (kv.2.headD "")) acc) := by
  induction hdr generalizing acc with
  | nil => rfl
  | cons kv rest ih =>
    obtain ⟨k, vs⟩ := kv
    have hlen : vs.length = 1 := h (k, vs) (List.mem_cons_self _ _)
    match vs, hlen with
    | [v], _ =>
      simp only [setPartHeaders, List.foldl_cons]
      exact ih (hdrSet acc k v) (fun kv hk => h kv (List.mem_cons_of_mem _ hk))

theorem setPartHeaders_panic (hdr : List (String × List String))
    (acc : List (String × String)) (h : ∃ kv ∈ hdr, kv.2.length ≠ 1) :
    setPartHeaders hdr acc = .error "internal error" := by
  induction hdr generalizing acc with
  | nil => simp at h
  | cons kv rest ih =>
    obtain ⟨k, vs⟩ := kv
    match vs with
    | [v] =>
      obtain ⟨w, hw, hwl⟩ := h
      rcases List.mem_cons.mp hw with hh | ht
      · subst hh
        simp at hwl
      · show setPartHeaders rest (hdrSet acc k v) = .error "internal error"
        exact ih (hdrSet acc k v) ⟨w, ht, hwl⟩
    | [] => rfl
    | v :: w :: tl => rfl

/-- C10: when every header key of the received part maps to exactly one
value, the `GET /jpeg` handler responds 200 with the part's headers
(set over the base headers) and the part body; when some key maps to
zero or several values, it panics with "internal error" and returns no
response. -/
theorem jpegHandler_single_valued (p : MimePart) :
    ((∀ kv ∈ p.hdr, kv.2.length = 1) →
      jpegHandler p = .ok ⟨200,
        p.hdr.foldl (fun a kv => hdrSet a kv.1 (kv.2.headD "")) jpegBaseHeaders, p.b⟩) ∧
    ((∃ kv ∈ p.hdr, kv.2.length ≠ 1) → jpegHandler p = .error "internal error") := by
  constructor
  · intro h
    simp [jpegHandler, Except.map, setPartHeaders_ok p.hdr jpegBaseHeaders h]
  · intro h
    simp [jpegHandler, Except.map, setPartHeaders_panic p.hdr jpegBaseHeaders h]

theorem jpegHandler_single_valued_witness :
    jpegHandler ⟨[("Content-Type", ["image/jpeg"]), ("Content-Length", ["6"])], "jpgjpg"⟩ =
      .ok ⟨200, jpegBaseHeaders ++
        [("Content-Type", "image/jpeg"), ("Content-Length", "6")], "jpgjpg"⟩ ∧
    jpegHandler ⟨[("Content-Type", ["image/jpeg", "text/plain"])], "jpgjpg"⟩ =
      .error "internal error" := by
  constructor
  · have h := (jpegHandler_single_valued
      ⟨[("Content-Type", ["image/jpeg"]), ("Content-Length", ["6"])], "jpgjpg"⟩).1
      (by decide)
    rw [h]
    rfl
  · exact (jpegHandler_single_valued
      ⟨[("Content-Type", ["image/jpeg", "text/plain"])], "jpgjpg"⟩).2
      ⟨("Content-Type", ["image/jpeg", "text/plain"]), by decide, by decide⟩

end RecordVideos
